import Mathlib

/-!
Verification of the streaming Markdown renderer of the aichat repository.

The development shallowly embeds the renderer core (src/render/markdown.rs,
src/render/stream.rs, src/render/mod.rs, src/utils/abort_signal.rs):
strings are lists of characters, the syntect/textwrap library boundary is
abstracted as an `Engine` record of pure functions, and the imperative loop
of `markdown_stream_inner` is modelled as explicit state passing.
-/

namespace AC


/-- Strings are modelled as lists of characters. -/
abbrev Str := List Char

/-- The newline character. -/
def nl : Char := Char.ofNat 10

/-- The backtick character that opens and closes Markdown code fences. -/
def fenceChar : Char := Char.ofNat 96

/-- Embeds Rust `str::split('\n')`: splitting on newlines, always returning
at least one (possibly empty) piece, with empty pieces kept. -/
def splitLines : Str → List Str
  | [] => [[]]
  | c :: rest =>
    if c = nl then [] :: splitLines rest
    else
      match splitLines rest with
      | [] => [[c]]
      | l :: ls => (c :: l) :: ls

/-- Embeds Rust `Vec::join("\n")`: interleaving a newline between pieces. -/
def joinLines : List Str → Str
  | [] => []
  | [l] => l
  | l :: ls => l ++ nl :: joinLines ls

/-- Embeds `split_line_tail` (src/render/stream.rs): split a text at its
last newline into head and tail; with no newline the head is empty and the
tail is the whole text. -/
def split_line_tail : Str → Str × Str
  | [] => ([], [])
  | c :: rest =>
    if nl ∈ rest then
      let p := split_line_tail rest
      (c :: p.1, p.2)
    else if c = nl then ([], rest)
    else ([], c :: rest)

/-- The per-line classification state of the renderer
(enum `LineType`, src/render/markdown.rs). -/
inductive LineType where
  | Normal
  | CodeBegin
  | CodeInner
  | CodeEnd
deriving DecidableEq, Repr

/-- The library boundary of the renderer: syntax lookup by language tag
(`find_syntax`), first-line sniffing (`find_syntax_by_first_line`),
the two highlighting paths of `highlight_code_line` / `highlight_line`
with the Markdown prose syntax, and `textwrap::core::display_width`.
`Syn` abstracts syntect `SyntaxReference` values. -/
structure Engine (Syn : Type) where
  find_syn : Str → Option Syn
  sniff_syn : Str → Option Syn
  hl_code : Str → Option Syn → Str
  hl_md : Str → Str
  dw : Str → Nat

/-- The mutable classifier state of `MarkdownRender`: the previous line
type and the optional resolved code syntax of the active fenced block. -/
structure RState (Syn : Type) where
  prev_line_type : LineType
  code_syn : Option Syn
deriving DecidableEq, Repr

/-- The fresh classifier state installed by `MarkdownRender::init`. -/
def initR {Syn : Type} : RState Syn := ⟨LineType.Normal, none⟩

/-- Embeds `detect_code_block` (src/render/markdown.rs): a line starting
with three backticks is a fence and carries as language tag the maximal
alphanumeric prefix of the rest; any other line is not a fence. -/
def detect_code_block (line : Str) : Option Str :=
  match line with
  | c1 :: c2 :: c3 :: rest =>
    if c1 = fenceChar ∧ c2 = fenceChar ∧ c3 = fenceChar then
      some (rest.takeWhile Char.isAlphanum)
    else none
  | _ => none

/-- Embeds `MarkdownRender::check_line`: computes the next line type, the
next resolved code syntax, and whether the line is highlighted as code. -/
def check_line {Syn : Type} (e : Engine Syn) (st : RState Syn) (line : Str) :
    LineType × Option Syn × Bool :=
  match detect_code_block line with
  | some lang =>
    match st.prev_line_type with
    | LineType.Normal | LineType.CodeEnd =>
      (LineType.CodeBegin, if lang = [] then none else e.find_syn lang, false)
    | LineType.CodeBegin | LineType.CodeInner =>
      (LineType.CodeEnd, none, false)
  | none =>
    match st.prev_line_type with
    | LineType.Normal => (LineType.Normal, st.code_syn, false)
    | LineType.CodeEnd => (LineType.Normal, st.code_syn, false)
    | LineType.CodeBegin =>
      let cs :=
        match st.code_syn with
        | none =>
          match e.sniff_syn line with
          | some s => some s
          | none => none
        | some s => some s
      (LineType.CodeInner, cs, true)
    | LineType.CodeInner => (LineType.CodeInner, st.code_syn, true)

/-- Embeds `MarkdownRender::render_line`: the non-mutating peek path.
It consults `check_line` but commits nothing: the state is only read. -/
def render_line {Syn : Type} (e : Engine Syn) (st : RState Syn) (line : Str) : Str :=
  let r := check_line e st line
  if r.2.2 then e.hl_code line r.2.1 else e.hl_md line

/-- Embeds `MarkdownRender::render_line_mut`: the committing path, returning
the highlighted line together with the successor classifier state. -/
def render_line_mut {Syn : Type} (e : Engine Syn) (st : RState Syn) (line : Str) :
    Str × RState Syn :=
  let r := check_line e st line
  (if r.2.2 then e.hl_code line r.2.1 else e.hl_md line, ⟨r.1, r.2.1⟩)

/-- Renders a list of lines in order through `render_line_mut`,
threading the classifier state. -/
def renderLines {Syn : Type} (e : Engine Syn) (st : RState Syn) :
    List Str → List Str × RState Syn
  | [] => ([], st)
  | l :: ls =>
    let r := render_line_mut e st l
    let rs := renderLines e r.2 ls
    (r.1 :: rs.1, rs.2)

/-- Embeds `MarkdownRender::render`: split the text on newlines, render each
line through `render_line_mut`, and join the results with newlines. -/
def render {Syn : Type} (e : Engine Syn) (st : RState Syn) (text : Str) :
    Str × RState Syn :=
  let rs := renderLines e st (splitLines text)
  (joinLines rs.1, rs.2)

/-- The producer-facing handler (`ReplyHandler`, src/render/mod.rs), owning
the accumulated output buffer. The channel and abort signal are external;
each call takes the send outcome and the abort state as inputs. -/
structure ReplyHandler where
  buffer : Str
deriving DecidableEq, Repr

/-- Embeds `ReplyHandler::safe_ret`: an error result is converted to
success when the abort signal is set, and passed through otherwise. -/
def safe_ret (aborted : Bool) (ret : Except Unit Unit) : Except Unit Unit :=
  match ret with
  | Except.error e => if aborted then Except.ok () else Except.error e
  | Except.ok v => Except.ok v

/-- Embeds `ReplyHandler::text`: a no-op on the empty fragment; otherwise
the fragment is appended to the buffer, then the channel send is attempted
(`send_ok` is its outcome) and the result filtered through `safe_ret`. -/
def ReplyHandler.text (h : ReplyHandler) (t : Str) (send_ok aborted : Bool) :
    ReplyHandler × Except Unit Unit :=
  if t = [] then (h, Except.ok ())
  else
    (⟨h.buffer ++ t⟩,
      safe_ret aborted (if send_ok then Except.ok () else Except.error ()))

/-- Embeds `ReplyHandler::done`: sends the `Done` event, with the same
failure tolerance as `text`; the buffer is untouched. -/
def ReplyHandler.done (h : ReplyHandler) (send_ok aborted : Bool) :
    ReplyHandler × Except Unit Unit :=
  (h, safe_ret aborted (if send_ok then Except.ok () else Except.error ()))

/-- Embeds `ReplyHandler::get_buffer`. -/
def ReplyHandler.get_buffer (h : ReplyHandler) : Str := h.buffer

/-- Embeds `ReplyHandler::new`: the fresh handler with an empty buffer. -/
def ReplyHandler.mk_new : ReplyHandler := ⟨[]⟩

/-- Runs a sequence of `text` calls; each list entry carries the fragment,
the send outcome, and the abort state at that call. -/
def run_texts (h : ReplyHandler) : List (Str × Bool × Bool) → ReplyHandler
  | [] => h
  | c :: rest => run_texts (h.text c.1 c.2.1 c.2.2).1 rest

/-- The buffer-protocol state of the stream loop, restricted to what
reaches the renderer: the partial line carried between fragments, the
classifier state, and the text committed to the terminal so far. -/
structure FeedState (Syn : Type) where
  buffer : Str
  rstate : RState Syn
  committed : Str

/-- One fragment through the buffer protocol of `markdown_stream_inner`
(src/render/stream.rs, the `text.contains('\n')` branch): a fragment with
a newline splits `buffer ++ fragment` at the last newline, commits the
rendered head (`print_block` emits every output line with a trailing
newline), and carries the tail; a fragment without a newline is only
appended to the buffer. -/
def feed_step {Syn : Type} (e : Engine Syn) (s : FeedState Syn) (text : Str) :
    FeedState Syn :=
  if nl ∈ text then
    let t := s.buffer ++ text
    let p := split_line_tail t
    let r := render e s.rstate p.1
    ⟨p.2, r.2, s.committed ++ r.1 ++ [nl]⟩
  else
    ⟨s.buffer ++ text, s.rstate, s.committed⟩

/-- The fresh protocol state. -/
def initFeed {Syn : Type} : FeedState Syn := ⟨[], initR, []⟩

/-- Embeds `need_rows` (src/render/stream.rs) with `u16` semantics: the
source computes `display_width(text).max(1) as u16`, a truncation mod
2^16, and then `(buffer_width + columns - 1) / columns` on `u16`, whose
addition and subtraction wrap mod 2^16 in the release profile (the debug
profile panics at the same inputs). For `buffer_width` and `columns`
below 2^16 the wrapped value of `buffer_width + columns - 1` over `Nat`
is `(buffer_width + columns + 2^16 - 1) % 2^16`; the `u16` division
itself is exact. -/
def need_rows (dw : Str → Nat) (text : Str) (columns : Nat) : Nat :=
  (Nat.max (dw text) 1 % 65536 + columns + 65535) % 65536 / columns

/-- The row count returned by `print_block` (src/render/stream.rs): its
`u16` counter increments once per newline-separated line of the printed
text and wraps mod 2^16 in the release profile. Printing is not modelled;
only the returned count feeds the row accounting. -/
def print_block_rows (text : Str) : Nat := (splitLines text).length % 65536

/-- The terminal bookkeeping of `markdown_stream_inner`: the partial
buffer, its row count `buffer_rows`, and the classifier state. -/
structure DrawState (Syn : Type) where
  buffer : Str
  buffer_rows : Nat
  rstate : RState Syn

/-- The initial bookkeeping: empty buffer, `buffer_rows = 1`, fresh
classifier state. -/
def initDraw {Syn : Type} : DrawState Syn := ⟨[], 1, initR⟩

/-- The `buffer_rows` recomputation applied to the rendering of the
current buffer: with a newline in the rendered output the head lines count
as committed rows and the tail needs `need_rows`; otherwise `need_rows` of
the whole output. -/
def compute_rows {Syn : Type} (e : Engine Syn) (columns : Nat) (output : Str) :
    Nat :=
  if nl ∈ output then
    print_block_rows (split_line_tail output).1 +
      need_rows e.dw (split_line_tail output).2 columns
  else need_rows e.dw output columns

/-- Embeds the `ReplyEvent::Text` arm of `markdown_stream_inner`: update
the buffer (splitting off and committing completed lines when the incoming
text has a newline), re-render the buffer through the peek path, and
recompute `buffer_rows`. -/
def text_step {Syn : Type} (e : Engine Syn) (columns : Nat) (s : DrawState Syn)
    (text : Str) : DrawState Syn :=
  let bs :=
    if nl ∈ text then
      let p := split_line_tail (s.buffer ++ text)
      (p.2, (render e s.rstate p.1).2)
    else (s.buffer ++ text, s.rstate)
  let output := render_line e bs.2 bs.1
  let rows :=
    if nl ∈ output then
      print_block_rows (split_line_tail output).1 +
        need_rows e.dw (split_line_tail output).2 columns
    else need_rows e.dw output columns
  ⟨bs.1, rows, bs.2⟩

/-- Embeds `Duration::checked_sub`: `none` exactly when the subtraction
would underflow. -/
def checked_sub (a b : Nat) : Option Nat :=
  if b ≤ a then some (a - b) else none

/-- Embeds the poll-timeout computation of `markdown_stream_inner`
(src/render/stream.rs): `tick_rate.checked_sub(last_tick.elapsed())
.unwrap_or_else(|| tick_rate.div(2))`, durations as nanosecond counts. -/
def poll_timeout (tick_rate elapsed : Nat) : Nat :=
  match checked_sub tick_rate elapsed with
  | some d => d
  | none => tick_rate / 2

/-- The stream events of the render channel (`ReplyEvent`,
src/render/mod.rs). -/
inductive Ev where
  | text : Str → Ev
  | done : Ev

/-- The key events the loop reacts to. -/
inductive KeyEv where
  | ctrlc
  | ctrld
  | other

/-- The external inputs one iteration of `markdown_stream_inner` consumes:
the abort flag at loop entry, whether `spinner.step` fails, the gathered
event batch, whether the terminal I/O of the text arm fails, the polled
key, and whether the poll itself fails. -/
structure IterIn where
  aborted : Bool
  step_err : Bool
  events : List Ev
  ev_err : Bool
  key : Option KeyEv
  poll_err : Bool

/-- Result of processing one gathered event batch. -/
inductive EvOut where
  | cont
  | errored
  | doneHit
deriving DecidableEq

/-- Embeds the `for reply_event in gather_events(rx)` body restricted to
spinner bookkeeping: `spinner.stop` runs before each event is matched; a
text event may fail on terminal I/O; a done event breaks the outer loop. -/
def run_events (stopped : Bool) (ev_err : Bool) : List Ev → Bool × EvOut
  | [] => (stopped, EvOut.cont)
  | Ev.text _ :: rest =>
    if ev_err then (true, EvOut.errored) else run_events true ev_err rest
  | Ev.done :: _ => (true, EvOut.doneHit)

/-- The ways `markdown_stream_inner` can leave its loop. -/
inductive Outcome where
  | abortExit
  | errExit
  | doneExit
  | keyExit
  | outOfInput
deriving DecidableEq, Repr

/-- What the loop returns: the exit path taken and whether `Spinner::stop`
had been executed by the time of return. -/
structure LoopRes where
  outcome : Outcome
  spinner_stopped : Bool
deriving DecidableEq, Repr

/-- Embeds the control flow of `markdown_stream_inner`
(src/render/stream.rs, the `'outer: loop`), tracking the spinner-stopped
flag: the aborted check returns before any stop; a failing `spinner.step`
propagates the error with `?`; the event batch runs through `run_events`;
a done event breaks to the final `spinner.stop`, as do Ctrl+C and Ctrl+D
after setting their abort flags; poll errors propagate; otherwise the loop
continues with the next iteration's inputs. -/
def run_loop : List IterIn → Bool → LoopRes
  | [], stopped => ⟨Outcome.outOfInput, stopped⟩
  | it :: rest, stopped =>
    if it.aborted then ⟨Outcome.abortExit, stopped⟩
    else if it.step_err && !stopped then ⟨Outcome.errExit, stopped⟩
    else
      match (run_events stopped it.ev_err it.events).2 with
      | EvOut.errored => ⟨Outcome.errExit, (run_events stopped it.ev_err it.events).1⟩
      | EvOut.doneHit => ⟨Outcome.doneExit, true⟩
      | EvOut.cont =>
        if it.poll_err then
          ⟨Outcome.errExit, (run_events stopped it.ev_err it.events).1⟩
        else
          match it.key with
          | some KeyEv.ctrlc => ⟨Outcome.keyExit, true⟩
          | some KeyEv.ctrld => ⟨Outcome.keyExit, true⟩
          | _ => run_loop rest (run_events stopped it.ev_err it.events).1

/-- A concrete instantiation of the library boundary used to evaluate the
model on closed inputs. It reflects `RenderOptions::default()` with no
theme and no wrapping (both highlight paths return the line unchanged), a
syntax set on which tag lookup misses, first-line sniffing that succeeds
on shebang lines (as syntect's `find_syntax_by_first_line` does for
`#!...` scripts), and the display width of plain ASCII text: one column
per character. -/
def engine0 : Engine Nat :=
  ⟨fun _ => none,
   fun line => if line.take 2 = ['#', '!'] then some 0 else none,
   fun line _ => line,
   fun line => line,
   List.length⟩

/-- The width side of the library boundary at the moment the partial
buffer has grown into a single line of 65536 plain ASCII characters:
`textwrap::core::display_width` of that line is 65536 (one column per
character). `need_rows` depends on its text argument only through the
display width, so this engine records that width directly instead of
materialising the 65536-element character list; highlighting stays the
no-theme passthrough. -/
def engineWide : Engine Nat :=
  ⟨fun _ => none, fun _ => none, fun line _ => line, fun line => line,
   fun _ => 65536⟩

/-- The transition function as claim C3 words it: the table of spec
section 4.4, read literally, with the sniffing parenthetical applying to
both `CodeBegin` and `CodeInner` ("from state CodeBegin or CodeInner ... a
non-fence line yields CodeInner with is_code = true (sniffing the syntax
from the line if still unresolved)"). Compared against `check_line`. -/
def check_line_claimed {Syn : Type} (e : Engine Syn) (st : RState Syn)
    (line : Str) : LineType × Option Syn × Bool :=
  match detect_code_block line with
  | some lang =>
    match st.prev_line_type with
    | LineType.Normal | LineType.CodeEnd =>
      (LineType.CodeBegin, if lang = [] then none else e.find_syn lang, false)
    | LineType.CodeBegin | LineType.CodeInner =>
      (LineType.CodeEnd, none, false)
  | none =>
    match st.prev_line_type with
    | LineType.Normal | LineType.CodeEnd =>
      (LineType.Normal, st.code_syn, false)
    | LineType.CodeBegin | LineType.CodeInner =>
      (LineType.CodeInner,
        (match st.code_syn with
         | none => e.sniff_syn line
         | some s => some s), true)

/-- The amended transition table: as claim C3, except that first-line
sniffing happens only when the previous state is `CodeBegin` (the first
line after an opening fence); from `CodeInner` the resolved syntax is left
unchanged. -/
def check_line_amended {Syn : Type} (e : Engine Syn) (st : RState Syn)
    (line : Str) : LineType × Option Syn × Bool :=
  match detect_code_block line with
  | some lang =>
    match st.prev_line_type with
    | LineType.Normal | LineType.CodeEnd =>
      (LineType.CodeBegin, if lang = [] then none else e.find_syn lang, false)
    | LineType.CodeBegin | LineType.CodeInner =>
      (LineType.CodeEnd, none, false)
  | none =>
    match st.prev_line_type with
    | LineType.Normal | LineType.CodeEnd =>
      (LineType.Normal, st.code_syn, false)
    | LineType.CodeBegin =>
      (LineType.CodeInner,
        (match st.code_syn with
         | none => e.sniff_syn line
         | some s => some s), true)
    | LineType.CodeInner => (LineType.CodeInner, st.code_syn, true)

/-- A shebang-shaped line: non-fence, and first-line sniffing resolves it
under `engine0`. -/
def shebangLine : Str := ['#', '!', '/', 'b']

/-- A loop iteration with no abort, no events, no key, and no I/O error:
the spinner keeps running. -/
def idleIter : IterIn := ⟨false, false, [], false, none, false⟩

/-- A loop iteration entered with the abort token set. -/
def abortIter : IterIn := ⟨true, false, [], false, none, false⟩

/-- A loop iteration whose gathered batch is a single `Done` event. -/
def doneIter : IterIn := ⟨false, false, [Ev.done], false, none, false⟩

/-- `splitLines` never returns an empty list of pieces. -/
theorem splitLines_ne_nil (s : Str) : splitLines s ≠ [] := by
  induction s with
  | nil => simp [splitLines]
  | cons c rest ih =>
    simp only [splitLines]
    split
    · simp
    · cases h : splitLines rest with
      | nil => simp
      | cons l ls => simp

/-- Splitting distributes over a newline join: `splitLines (a ++ nl :: b)`
is `splitLines a ++ splitLines b`. -/
theorem splitLines_append (a b : Str) :
    splitLines (a ++ nl :: b) = splitLines a ++ splitLines b := by
  induction a with
  | nil => simp [splitLines]
  | cons c rest ih =>
    rw [List.cons_append]
    by_cases hc : c = nl
    · simp [splitLines, hc, ih]
    · cases h : splitLines rest with
      | nil => exact absurd h (splitLines_ne_nil rest)
      | cons l ls => simp [splitLines, hc, ih, h]

/-- Joining distributes over appending nonempty line lists. -/
theorem joinLines_append (xs ys : List Str) (hx : xs ≠ []) (hy : ys ≠ []) :
    joinLines (xs ++ ys) = joinLines xs ++ nl :: joinLines ys := by
  induction xs with
  | nil => exact absurd rfl hx
  | cons l ls ih =>
    cases ls with
    | nil =>
      cases ys with
      | nil => exact absurd rfl hy
      | cons y ys' => simp [joinLines]
    | cons l2 ls2 =>
      have h2 : (l2 :: ls2 : List Str) ≠ [] := by simp
      have ih2 := ih h2
      rw [List.cons_append] at ih2
      simp [joinLines, ih2, List.append_assoc]

/-- `renderLines` over an appended line list runs the two parts in
sequence, threading the classifier state. -/
theorem renderLines_append {Syn : Type} (e : Engine Syn) (st : RState Syn)
    (xs ys : List Str) :
    renderLines e st (xs ++ ys) =
      ((renderLines e st xs).1 ++ (renderLines e (renderLines e st xs).2 ys).1,
        (renderLines e (renderLines e st xs).2 ys).2) := by
  induction xs generalizing st with
  | nil => simp [renderLines]
  | cons l ls ih => simp [renderLines, ih]

/-- `renderLines` returns one output line per input line. -/
theorem renderLines_ne_nil {Syn : Type} (e : Engine Syn) (st : RState Syn)
    (xs : List Str) (hx : xs ≠ []) : (renderLines e st xs).1 ≠ [] := by
  cases xs with
  | nil => exact absurd rfl hx
  | cons l ls => simp [renderLines]

/-- The compositional law of `render`: rendering `a ++ "\n" ++ b` in one
shot equals rendering `a`, then `b` from the resulting state, with the two
outputs joined by a newline. -/
theorem render_split {Syn : Type} (e : Engine Syn) (st : RState Syn) (a b : Str) :
    render e st (a ++ nl :: b) =
      ((render e st a).1 ++ nl :: (render e (render e st a).2 b).1,
        (render e (render e st a).2 b).2) := by
  simp only [render, splitLines_append,
    renderLines_append e st (splitLines a) (splitLines b)]
  rw [joinLines_append]
  · exact renderLines_ne_nil e st (splitLines a) (splitLines_ne_nil a)
  · exact renderLines_ne_nil e _ (splitLines b) (splitLines_ne_nil b)

/-- The tail returned by `split_line_tail` never contains a newline. -/
theorem split_line_tail_no_nl (x : Str) : nl ∉ (split_line_tail x).2 := by
  induction x with
  | nil => simp [split_line_tail]
  | cons c rest ih =>
    by_cases h : nl ∈ rest
    · simp only [split_line_tail, if_pos h]
      exact ih
    · by_cases hc : c = nl
      · simp only [split_line_tail, if_neg h, if_pos hc]
        exact h
      · simp only [split_line_tail, if_neg h, if_neg hc]
        intro hm
        rcases List.mem_cons.mp hm with h1 | h2
        · exact hc h1.symm
        · exact h h2

/-- When the input contains a newline, `split_line_tail` reconstructs it
as `head ++ "\n" ++ tail`. -/
theorem split_line_tail_recon (x : Str) (hx : nl ∈ x) :
    (split_line_tail x).1 ++ nl :: (split_line_tail x).2 = x := by
  induction x with
  | nil => cases hx
  | cons c rest ih =>
    by_cases h : nl ∈ rest
    · simp only [split_line_tail, if_pos h, List.cons_append, List.cons.injEq,
        true_and]
      exact ih h
    · have hc : c = nl := by
        rcases List.mem_cons.mp hx with h1 | h2
        · exact h1.symm
        · exact absurd h2 h
      simp [split_line_tail, if_neg h, hc]

/-- Each `text` call extends the buffer by exactly its fragment,
independent of send outcome and abort state. -/
theorem run_texts_buffer (calls : List (Str × Bool × Bool)) (h : ReplyHandler) :
    (run_texts h calls).buffer = h.buffer ++ (calls.map Prod.fst).flatten := by
  induction calls generalizing h with
  | nil => simp [run_texts]
  | cons c rest ih =>
    simp only [run_texts, ih, List.map_cons, List.flatten_cons]
    by_cases hc : c.1 = []
    · simp [ReplyHandler.text, hc]
    · simp [ReplyHandler.text, hc]

/-- Continuation-style invariant of the buffer protocol: the committed
output plus the rendering of the residual buffer extended by any continuation
equals the rendering of everything consumed so far plus the continuation. -/
theorem feed_inv {Syn : Type} (e : Engine Syn) (fs : List Str)
    (s : FeedState Syn) (k : Str) :
    (List.foldl (feed_step e) s fs).committed ++
      (render e (List.foldl (feed_step e) s fs).rstate
        ((List.foldl (feed_step e) s fs).buffer ++ k)).1 =
    s.committed ++ (render e s.rstate (s.buffer ++ fs.flatten ++ k)).1 := by
  induction fs generalizing s k with
  | nil => simp
  | cons f rest ih =>
    rw [List.foldl_cons, ih]
    by_cases hf : nl ∈ f
    · have hmem : nl ∈ s.buffer ++ f := List.mem_append.mpr (Or.inr hf)
      have hrec := split_line_tail_recon (s.buffer ++ f) hmem
      simp only [feed_step, if_pos hf, List.flatten_cons]
      have harg : s.buffer ++ (f ++ rest.flatten) ++ k =
          (split_line_tail (s.buffer ++ f)).1 ++
            nl :: ((split_line_tail (s.buffer ++ f)).2 ++ rest.flatten ++ k) :=
        calc s.buffer ++ (f ++ rest.flatten) ++ k
            = s.buffer ++ f ++ (rest.flatten ++ k) := by
              simp [List.append_assoc]
          _ = ((split_line_tail (s.buffer ++ f)).1 ++
                nl :: (split_line_tail (s.buffer ++ f)).2) ++
                (rest.flatten ++ k) := by rw [hrec]
          _ = (split_line_tail (s.buffer ++ f)).1 ++
                nl :: ((split_line_tail (s.buffer ++ f)).2 ++
                  rest.flatten ++ k) := by simp [List.append_assoc]
      rw [harg, render_split]
      simp [List.append_assoc]
    · simp only [feed_step, if_neg hf]
      simp

/-- A `text_step` leaves no newline in the buffer. -/
theorem text_step_no_nl {Syn : Type} (e : Engine Syn) (columns : Nat)
    (s : DrawState Syn) (text : Str) (hs : nl ∉ s.buffer) :
    nl ∉ (text_step e columns s text).buffer := by
  by_cases h : nl ∈ text
  · simp only [text_step, if_pos h]
    exact split_line_tail_no_nl (s.buffer ++ text)
  · simp only [text_step, if_neg h]
    intro hm
    rcases List.mem_append.mp hm with h1 | h2
    · exact hs h1
    · exact h h2

/-- The no-newline buffer invariant is preserved across any event
sequence. -/
theorem foldl_text_step_no_nl {Syn : Type} (e : Engine Syn) (columns : Nat)
    (texts : List Str) (s : DrawState Syn) (hs : nl ∉ s.buffer) :
    nl ∉ (List.foldl (text_step e columns) s texts).buffer := by
  induction texts generalizing s with
  | nil => exact hs
  | cons t rest ih =>
    exact ih (text_step e columns s t) (text_step_no_nl e columns s t hs)

/-- C1: for every sequence of `text` calls (fragments possibly empty,
channel-send outcomes and abort states arbitrary) followed by `done`,
`get_buffer` returns exactly the concatenation of the fragments. Empty
fragments contribute nothing, each non-empty fragment is appended before
the send is attempted, and a send failure never rolls the append back. -/
theorem C1_round_trip_buffer (calls : List (Str × Bool × Bool))
    (send_ok aborted : Bool) :
    ((run_texts ReplyHandler.mk_new calls).done send_ok aborted).1.get_buffer =
      (calls.map Prod.fst).flatten := by
  simp [ReplyHandler.done, ReplyHandler.get_buffer, ReplyHandler.mk_new,
    run_texts_buffer]

/-- C4: for every `text` call on a non-empty fragment and every `done`
call, the call returns `Ok` when the channel send succeeds, returns `Ok`
when the send fails while the abort token is set, and returns an error
when the send fails while the token is not set. -/
theorem C4_send_failure_tolerance (h : ReplyHandler) (t : Str)
    (send_ok aborted : Bool) (ht : t ≠ []) :
    (h.text t send_ok aborted).2 =
      (if send_ok || aborted then Except.ok () else Except.error ()) ∧
    (h.done send_ok aborted).2 =
      (if send_ok || aborted then Except.ok () else Except.error ()) := by
  cases send_ok <;> cases aborted <;>
    simp [ReplyHandler.text, ReplyHandler.done, safe_ret, ht]

/-- Witness for C4: a failed send under an aborted token still returns
`Ok`, at the concrete fragment `"a"`. -/
theorem C4_witness :
    (ReplyHandler.text ⟨[]⟩ ['a'] false true).2 = Except.ok () ∧
    (ReplyHandler.done ⟨[]⟩ false true).2 = Except.ok () := by
  have h := C4_send_failure_tolerance ⟨[]⟩ ['a'] false true (by decide)
  exact ⟨by simpa using h.1, by simpa using h.2⟩

/-- C7: the peek path `render_line` returns exactly the string the commit
path `render_line_mut` would return from the same state, and
`render_line_mut` commits precisely the transition returned by
`check_line`. (`render_line` takes the state by value and returns only the
string, so in this embedding its non-mutation is by construction, matching
the `&self` receiver in the source.) -/
theorem C7_peek_equals_commit {Syn : Type} (e : Engine Syn) (st : RState Syn)
    (line : Str) :
    render_line e st line = (render_line_mut e st line).1 ∧
    (render_line_mut e st line).2 =
      RState.mk (check_line e st line).1 (check_line e st line).2.1 :=
  ⟨rfl, rfl⟩

/-- C2: chunk-boundary independence. First conjunct: feeding any fragment
list through the buffer protocol and then rendering the residual buffer
yields exactly the one-shot rendering of the concatenated text. Second
conjunct: for all strings `a`, `b` and every renderer state, rendering
`a ++ "\n" ++ b` in one call equals rendering `a` and then `b`
sequentially on the same renderer, joined by a newline. -/
theorem C2_chunk_boundary_independence {Syn : Type} (e : Engine Syn) :
    (∀ fs : List Str,
      (List.foldl (feed_step e) initFeed fs).committed ++
        (render e (List.foldl (feed_step e) initFeed fs).rstate
          (List.foldl (feed_step e) initFeed fs).buffer).1 =
      (render e initR fs.flatten).1) ∧
    (∀ (st : RState Syn) (a b : Str),
      (render e st (a ++ nl :: b)).1 =
        (render e st a).1 ++ nl :: (render e (render e st a).2 b).1) := by
  refine ⟨fun fs => ?_, fun st a b => ?_⟩
  · have h := feed_inv e fs initFeed []
    simpa [initFeed] using h
  · rw [render_split]

/-- Counterexample for C6: with the code's 50 ms tick rate and 60 ms
elapsed, the poll timeout is 25 ms (`tick_rate / 2`), not the zero floor
the claim requires. -/
theorem C6_counterexample :
    poll_timeout 50 60 = 25 ∧ poll_timeout 50 60 ≠ 50 - 60 := by decide

/-- C6 amended: the poll timeout is `tick_rate - elapsed` while the
elapsed time has not exceeded the tick rate, and falls back to
`tick_rate / 2` (25 ms for the code's 50 ms tick rate) afterwards — not
zero. -/
theorem C6_poll_timeout_fallback (tick_rate elapsed : Nat) :
    poll_timeout tick_rate elapsed =
      (if elapsed ≤ tick_rate then tick_rate - elapsed else tick_rate / 2) ∧
    poll_timeout 50 elapsed = (if elapsed ≤ 50 then 50 - elapsed else 25) := by
  constructor
  · by_cases h : elapsed ≤ tick_rate <;> simp [poll_timeout, checked_sub, h]
  · by_cases h : elapsed ≤ 50 <;> simp [poll_timeout, checked_sub, h]

/-- `detect_code_block` recognises exactly the lines whose first three
characters are backticks, and extracts the maximal alphanumeric prefix of
the remainder as the language tag. -/
theorem detect_code_block_take3 (line : Str) :
    detect_code_block line =
      (if line.take 3 = [fenceChar, fenceChar, fenceChar] then
        some ((line.drop 3).takeWhile Char.isAlphanum) else none) := by
  match line with
  | [] => simp [detect_code_block]
  | [c1] => simp [detect_code_block]
  | [c1, c2] => simp [detect_code_block]
  | c1 :: c2 :: c3 :: rest =>
    by_cases h : c1 = fenceChar ∧ c2 = fenceChar ∧ c3 = fenceChar
    · obtain ⟨h1, h2, h3⟩ := h
      simp [detect_code_block, h1, h2, h3]
    · have hne : ¬ ((c1 :: c2 :: c3 :: rest).take 3 =
          [fenceChar, fenceChar, fenceChar]) := by
        simp only [List.take, List.cons.injEq, and_true]
        exact fun hc => h ⟨hc.1, hc.2.1, hc.2.2⟩
      simp [detect_code_block, h, hne]

/-- Counterexample for C3: in state `CodeInner` with no resolved syntax,
the code does not sniff the syntax from the line, while the claimed table
does. Under `engine0` (where first-line sniffing resolves shebang lines,
as syntect's `find_syntax_by_first_line` does) the two transition
functions disagree on the concrete line `"#!/b"`. -/
theorem C3_counterexample :
    check_line engine0 (RState.mk LineType.CodeInner none) shebangLine ≠
      check_line_claimed engine0 (RState.mk LineType.CodeInner none)
        shebangLine := by
  decide

/-- C3 amended: the classifier implements the claimed transition table
except that first-line sniffing happens only from state `CodeBegin`; a
line is a fence marker iff its first three characters are the fence
token, with the language tag the maximal alphanumeric prefix of the rest;
and `is_code` holds exactly for non-fence lines in state `CodeBegin` or
`CodeInner`, so fence lines are never classified as code. -/
theorem C3_line_classifier {Syn : Type} (e : Engine Syn) (st : RState Syn)
    (line : Str) :
    check_line e st line = check_line_amended e st line ∧
    detect_code_block line =
      (if line.take 3 = [fenceChar, fenceChar, fenceChar] then
        some ((line.drop 3).takeWhile Char.isAlphanum) else none) ∧
    ((check_line e st line).2.2 = true ↔
      (detect_code_block line = none ∧
        (st.prev_line_type = LineType.CodeBegin ∨
          st.prev_line_type = LineType.CodeInner))) := by
  obtain ⟨plt, cs⟩ := st
  refine ⟨?_, detect_code_block_take3 line, ?_⟩
  · cases h : detect_code_block line <;> cases plt <;> cases cs <;>
      simp [check_line, check_line_amended, h] <;>
      cases e.sniff_syn line <;> rfl
  · cases h : detect_code_block line <;> cases plt <;> cases cs <;>
      simp [check_line, h]

/-- Counterexample for C5: after one iteration in which the spinner draws
a frame, an iteration entered with the abort token set returns success
immediately, without `Spinner::stop` having been executed: the loop does
return with the spinner still running on this exit path. -/
theorem C5_counterexample :
    (run_loop [idleIter, abortIter] false).outcome = Outcome.abortExit ∧
    (run_loop [idleIter, abortIter] false).spinner_stopped = false := by
  decide

/-- C5 amended: `Spinner::stop` has been executed before return on the
normal `Done` exit and on the Ctrl+C/Ctrl+D exits; the abort-token exit
and the error exits return without stopping the spinner (it is stopped
there only if earlier event processing already stopped it). -/
theorem C5_spinner_stopped_on_done_or_key (script : List IterIn)
    (stopped : Bool)
    (hexit : (run_loop script stopped).outcome = Outcome.doneExit ∨
      (run_loop script stopped).outcome = Outcome.keyExit) :
    (run_loop script stopped).spinner_stopped = true := by
  induction script generalizing stopped with
  | nil => rcases hexit with h | h <;> simp [run_loop] at h
  | cons it rest ih =>
    by_cases ha : it.aborted = true
    · rcases hexit with h | h <;> simp [run_loop, ha] at h
    · by_cases hs : (it.step_err && !stopped) = true
      · rcases hexit with h | h <;> simp [run_loop, ha, hs] at h
      · cases hre : (run_events stopped it.ev_err it.events).2 with
        | errored =>
          rcases hexit with h | h <;> simp [run_loop, ha, hs, hre] at h
        | doneHit => simp [run_loop, ha, hs, hre]
        | cont =>
          by_cases hp : it.poll_err = true
          · rcases hexit with h | h <;> simp [run_loop, ha, hs, hre, hp] at h
          · cases hk : it.key with
            | none =>
              have hx : run_loop (it :: rest) stopped =
                  run_loop rest (run_events stopped it.ev_err it.events).1 := by
                simp [run_loop, ha, hs, hre, hp, hk]
              rw [hx] at hexit ⊢
              exact ih _ hexit
            | some k =>
              cases k with
              | ctrlc => simp [run_loop, ha, hs, hre, hp, hk]
              | ctrld => simp [run_loop, ha, hs, hre, hp, hk]
              | other =>
                have hx : run_loop (it :: rest) stopped =
                    run_loop rest (run_events stopped it.ev_err it.events).1 := by
                  simp [run_loop, ha, hs, hre, hp, hk]
                rw [hx] at hexit ⊢
                exact ih _ hexit

/-- Witness for C5 amended: a `Done` batch exits with the spinner
stopped. -/
theorem C5_witness : (run_loop [doneIter] false).spinner_stopped = true :=
  C5_spinner_stopped_on_done_or_key [doneIter] false (Or.inl (by decide))

/-- C8: the redraw-engine loop invariant. `split_line_tail` returns a tail
free of newlines and reconstructs its input around the last newline when
one is present; starting from the initial state, the partial buffer never
contains a newline after any sequence of text batches; and after every
text batch `buffer_rows` equals the recomputation from the rendering of
the new buffer, before any further redraw decision. -/
theorem C8_buffer_invariant {Syn : Type} (e : Engine Syn) (columns : Nat) :
    (∀ x : Str, nl ∉ (split_line_tail x).2) ∧
    (∀ x : Str, nl ∈ x →
      (split_line_tail x).1 ++ nl :: (split_line_tail x).2 = x) ∧
    (∀ texts : List Str,
      nl ∉ (List.foldl (text_step e columns) initDraw texts).buffer) ∧
    (∀ (s : DrawState Syn) (text : Str),
      (text_step e columns s text).buffer_rows =
        compute_rows e columns
          (render_line e (text_step e columns s text).rstate
            (text_step e columns s text).buffer)) := by
  refine ⟨split_line_tail_no_nl, split_line_tail_recon,
    fun texts => ?_, fun s text => ?_⟩
  · exact foldl_text_step_no_nl e columns texts initDraw (by simp [initDraw])
  · rfl

/-- Witness for C8: the split-at-last-newline reconstruction at the
concrete text `"a\nb"`. -/
theorem C8_witness :
    (split_line_tail (['a', nl, 'b'] : Str)).1 ++
      nl :: (split_line_tail (['a', nl, 'b'] : Str)).2 = ['a', nl, 'b'] :=
  (C8_buffer_invariant engine0 80).2.1 ['a', nl, 'b'] (by decide)

/-- `need_rows` reduction: when the clamped display width and the `u16`
addition stay below 2^16, the wrapped arithmetic computes the plain
`(max(width, 1) + columns - 1) / columns`. -/
theorem need_rows_eq_of_no_wrap (dw : Str → Nat) (text : Str) (columns : Nat)
    (hc : 0 < columns) (hnw : Nat.max (dw text) 1 + columns - 1 < 65536) :
    need_rows dw text columns =
      (Nat.max (dw text) 1 + columns - 1) / columns := by
  have hm : 1 ≤ Nat.max (dw text) 1 := le_max_right _ _
  have hm536 : Nat.max (dw text) 1 < 65536 := by omega
  unfold need_rows
  rw [Nat.mod_eq_of_lt hm536]
  have hx : Nat.max (dw text) 1 + columns + 65535 =
      (Nat.max (dw text) 1 + columns - 1) + 65536 := by omega
  rw [hx, Nat.add_mod_right, Nat.mod_eq_of_lt hnw]

/-- Overflow-free `need_rows` is at least one row. -/
theorem need_rows_ge_one (dw : Str → Nat) (text : Str) (columns : Nat)
    (hc : 0 < columns) (hnw : Nat.max (dw text) 1 + columns - 1 < 65536) :
    1 ≤ need_rows dw text columns := by
  rw [need_rows_eq_of_no_wrap dw text columns hc hnw]
  refine (Nat.le_div_iff_mul_le hc).mpr ?_
  have hm : 1 ≤ Nat.max (dw text) 1 := le_max_right _ _
  omega

/-- Counterexample for C9: on the empty rendered string (display width 0,
as when the buffer is empty and highlighting is a passthrough), `need_rows`
returns 1 at 80 columns, while the claimed ceiling of 0 / 80 is 0. -/
theorem C9_counterexample :
    need_rows engine0.dw [] 80 = 1 ∧ ((engine0.dw [] : Nat) ⌈/⌉ 80) = 0 := by
  decide

/-- C9 amended: whenever the `u16` row arithmetic neither truncates nor
wraps — `max(display_width, 1) + columns - 1 < 2^16` — `need_rows` is the
ceiling of the display width clamped below by one, divided by the column
count: it agrees with the claimed ceiling for positive widths and returns
1 (not 0) for zero-width text. The value is also characterised by the
defining bounds of a ceiling, and in the no-newline branch the engine sets
`buffer_rows` to exactly this value of the rendered buffer. -/
theorem C9_need_rows_ceiling {Syn : Type} (e : Engine Syn) (text : Str)
    (columns : Nat) (hc : 0 < columns)
    (hnw : Nat.max (e.dw text) 1 + columns - 1 < 65536) :
    need_rows e.dw text columns = (Nat.max (e.dw text) 1) ⌈/⌉ columns ∧
    (1 ≤ e.dw text →
      need_rows e.dw text columns = (e.dw text) ⌈/⌉ columns) ∧
    (e.dw text = 0 → need_rows e.dw text columns = 1) ∧
    (e.dw text ≤ need_rows e.dw text columns * columns ∧
      need_rows e.dw text columns * columns <
        Nat.max (e.dw text) 1 + columns) ∧
    (∀ (s : DrawState Syn) (t : Str),
      nl ∉ render_line e (text_step e columns s t).rstate
          (text_step e columns s t).buffer →
      (text_step e columns s t).buffer_rows =
        need_rows e.dw
          (render_line e (text_step e columns s t).rstate
            (text_step e columns s t).buffer) columns) := by
  have hm : 1 ≤ Nat.max (e.dw text) 1 := le_max_right _ _
  have hdw : e.dw text ≤ Nat.max (e.dw text) 1 := le_max_left _ _
  have hred := need_rows_eq_of_no_wrap e.dw text columns hc hnw
  have h1 : (Nat.max (e.dw text) 1 + columns - 1) / columns * columns ≤
      Nat.max (e.dw text) 1 + columns - 1 := Nat.div_mul_le_self _ _
  have h2 : Nat.max (e.dw text) 1 + columns - 1 <
      ((Nat.max (e.dw text) 1 + columns - 1) / columns + 1) * columns :=
    (Nat.div_lt_iff_lt_mul hc).mp
      (Nat.lt_succ_self ((Nat.max (e.dw text) 1 + columns - 1) / columns))
  have key : ∀ m c q : Nat, 1 ≤ m → 0 < c → q * c ≤ m + c - 1 →
      m + c - 1 < (q + 1) * c → m ≤ q * c ∧ q * c < m + c := by
    intro m c q hm1 hc1 ha1 ha2
    have h3 : (q + 1) * c = q * c + c := by rw [Nat.add_mul, Nat.one_mul]
    omega
  have hbounds := key (Nat.max (e.dw text) 1) columns
    ((Nat.max (e.dw text) 1 + columns - 1) / columns) hm hc h1 h2
  refine ⟨?_, fun hw => ?_, fun hw => ?_, ⟨?_, ?_⟩, fun s t hnl => ?_⟩
  · rw [hred]
    rfl
  · have hmax : Nat.max (e.dw text) 1 = e.dw text := max_eq_left hw
    rw [hred, hmax]
    rfl
  · have hmax : Nat.max (e.dw text) 1 = 1 := by
      rw [hw]
      decide
    have hcc : 1 + columns - 1 = columns := by omega
    rw [hred, hmax, hcc, Nat.div_self hc]
  · rw [hred]
    exact le_trans hdw hbounds.1
  · rw [hred]
    exact hbounds.2
  · simp only [text_step] at hnl ⊢
    rw [if_neg hnl]

/-- Witness for C9 amended: for the one-character string at one column the
row count is the claimed ceiling. -/
theorem C9_witness :
    need_rows engine0.dw ['a'] 1 = (engine0.dw ['a'] : Nat) ⌈/⌉ 1 :=
  (C9_need_rows_ceiling engine0 ['a'] 1 (by decide) (by decide)).2.1
    (by decide)

/-- Counterexample for C10: `need_rows` does return 0. When the
single-line partial buffer has display width 65536 (a 65536-character
ASCII line), the `as u16` cast truncates the clamped width
`65536.max(1)` to 0, and `(0 + 80 - 1) / 80 = 0` rows, so `buffer_rows`
is set to 0 by the next update, refuting the claimed lower bound. -/
theorem C10_counterexample :
    need_rows engineWide.dw [] 80 = 0 ∧ engineWide.dw [] = 65536 := by
  decide

/-- C10 amended: the cursor arithmetic is safe while the `u16` row
accounting does not truncate or wrap. `need_rows` returns at least 1
whenever `max(display_width, 1) + columns - 1 < 2^16` (but can return 0
past that, as the counterexample shows); `print_block` reports at least
one row whenever fewer than 2^16 lines are printed; under those bounds on
the rendered buffer, `buffer_rows` is at least 1 after every update; and
given `buffer_rows >= 1` and a non-wrapping `row + 1`, the branch on
`row + 1 >= buffer_rows` makes `row + 1 - buffer_rows` an exact
subtraction while the other branch hands `ScrollUp` a positive count. -/
theorem C10_cursor_arithmetic_safe {Syn : Type} (e : Engine Syn)
    (columns : Nat) (hc : 0 < columns) :
    (∀ (dw : Str → Nat) (text : Str),
      Nat.max (dw text) 1 + columns - 1 < 65536 →
      1 ≤ need_rows dw text columns) ∧
    (∀ text : Str, (splitLines text).length < 65536 →
      1 ≤ print_block_rows text) ∧
    (∀ output : Str,
      (nl ∈ output →
        (splitLines (split_line_tail output).1).length < 65536) →
      (nl ∉ output →
        Nat.max (e.dw output) 1 + columns - 1 < 65536) →
      1 ≤ compute_rows e columns output) ∧
    (∀ (s : DrawState Syn) (text : Str),
      (text_step e columns s text).buffer_rows =
        compute_rows e columns
          (render_line e (text_step e columns s text).rstate
            (text_step e columns s text).buffer)) ∧
    (∀ row buffer_rows : Nat, 1 ≤ buffer_rows → row + 1 < 65536 →
      (buffer_rows ≤ row + 1 →
        row + 1 - buffer_rows + buffer_rows = row + 1) ∧
      (row + 1 < buffer_rows → 1 ≤ buffer_rows - (row + 1))) := by
  have hpb : ∀ text : Str, (splitLines text).length < 65536 →
      1 ≤ print_block_rows text := by
    intro text hlt
    unfold print_block_rows
    rw [Nat.mod_eq_of_lt hlt]
    exact List.length_pos.mpr (splitLines_ne_nil text)
  refine ⟨fun dw text hnw => need_rows_ge_one dw text columns hc hnw, hpb,
    fun output hin hnotin => ?_, fun s text => rfl,
    fun row buffer_rows hb hr => ⟨fun hle => by omega, fun hlt => by omega⟩⟩
  by_cases ho : nl ∈ output
  · unfold compute_rows
    rw [if_pos ho]
    have hge := hpb (split_line_tail output).1 (hin ho)
    omega
  · unfold compute_rows
    rw [if_neg ho]
    exact need_rows_ge_one e.dw _ columns hc (hnotin ho)

/-- Witness for C10 amended: concrete instances of the guarded row bounds
and the exact subtraction. -/
theorem C10_witness :
    1 ≤ need_rows engine0.dw [] 80 ∧ 5 + 1 - 3 + 3 = 5 + 1 := by
  have h := C10_cursor_arithmetic_safe engine0 80 (by decide)
  exact ⟨h.1 engine0.dw [] (by decide),
    (h.2.2.2.2 5 3 (by decide) (by decide)).1 (by decide)⟩

end AC
